import Mathlib

/-!
# event-soundness: verification of the event-topic auditor

A shallow embedding of `src/event.py` (the single-file tool `event-soundness`)
and proofs of the specified properties: range chunking, event-signature /
topic-hash derivation (Keccak-256), log classification and tallying, the
required-events check, fetch error propagation, and exit-code policy.

Python `int` is modelled by `Int` (block numbers) or `Nat` (counters, bytes);
Python `dict` by an association list with first-match lookup and in-place
update (keys stay unique and in insertion order, as in CPython); fallible
Python code (uncaught exceptions) by `Except String`.
-/

namespace EventSoundness

/-! ## Python dict model

CPython dicts preserve insertion order; assignment to an existing key updates
the value in place, assignment to a fresh key appends.  `dget` is `d.get(k)`,
`dgetD` is `d.get(k, default)`, `dset` is `d[k] = v`. -/

/-- `d.get(k)`: value of the first (unique) entry with key `k`. -/
def dget {α : Type} : List (String × α) → String → Option α
  | [], _ => none
  | (k', v) :: rest, k => if k' = k then some v else dget rest k

/-- `d.get(k, v₀)`. -/
def dgetD {α : Type} (d : List (String × α)) (k : String) (v₀ : α) : α :=
  (dget d k).getD v₀

/-- `d[k] = v`: update in place if present, else append. -/
def dset {α : Type} : List (String × α) → String → α → List (String × α)
  | [], k, v => [(k, v)]
  | (k', v') :: rest, k, v =>
    if k' = k then (k, v) :: rest else (k', v') :: dset rest k v

/-- `d[k] = d.get(k, 0) + c`, the counter-increment idiom of `main`. -/
def bump (d : List (String × Nat)) (k : String) (c : Nat) : List (String × Nat) :=
  dset d k (dgetD d k 0 + c)

/-- Sum of the values of a dict. -/
def valsSum (d : List (String × Nat)) : Nat :=
  (d.map Prod.snd).sum

/-! ## Range chunker (`chunk_ranges`, src/event.py lines 35–45)

The Python loop `while cur <= end` advances `cur` to `min(cur+step-1, end)+1`.
For `step ≤ 0` and `start ≤ end` the loop never advances, so the embedding is
fuel-based: `none` models divergence, `some l` a terminating run returning
`l`.  The fuel `(end - start + 1).toNat` is enough whenever `step ≥ 1`. -/

/-- One Python loop iteration per unit of fuel. -/
def chunkRangesAux : Nat → Int → Int → Int → Option (List (Int × Int))
  | 0, cur, e, _ => if cur ≤ e then none else some []
  | fuel + 1, cur, e, step =>
    if cur ≤ e then
      let rngEnd := min (cur + step - 1) e
      (chunkRangesAux fuel (rngEnd + 1) e step).map (fun rest => (cur, rngEnd) :: rest)
    else some []

/-- `chunk_ranges(start, end, step)`; `none` models a non-terminating loop. -/
def chunk_ranges (start e step : Int) : Option (List (Int × Int)) :=
  chunkRangesAux (e - start + 1).toNat start e step

/-! ## Keccak-256 (`eth_utils.keccak`, used at src/event.py line 31)

The tool calls `keccak(text=signature)`: Keccak-256 (original padding, as in
Ethereum, not SHA3-256) of the UTF-8 bytes of the signature.  Lanes are `Nat`
values reduced mod `2^64`; the 25-lane state is a flat list, lane `(x, y)` at
index `x + 5*y`. -/

/-- 2^64, the lane modulus. -/
def M64 : Nat := 18446744073709551616

/-- Rotate a 64-bit lane left by `n` (for `0 ≤ n < 64`). -/
def rotl64 (x n : Nat) : Nat :=
  ((x <<< n) % M64) ||| (x >>> (64 - n))

/-- The 24 round constants of Keccak-f[1600]. -/
def keccakRC : List Nat :=
  [0x0000000000000001, 0x0000000000008082, 0x800000000000808a, 0x8000000080008000,
   0x000000000000808b, 0x0000000080000001, 0x8000000080008081, 0x8000000000008009,
   0x000000000000008a, 0x0000000000000088, 0x0000000080008009, 0x000000008000000a,
   0x000000008000808b, 0x800000000000008b, 0x8000000000008089, 0x8000000000008003,
   0x8000000000008002, 0x8000000000000080, 0x000000000000800a, 0x800000008000000a,
   0x8000000080008081, 0x8000000000008080, 0x0000000080000001, 0x8000000080008008]

/-- Theta step: xor each lane with a parity function of two columns. -/
def theta (st : List Nat) : List Nat :=
  let c := (List.range 5).map (fun x =>
    st.getD x 0 ^^^ st.getD (x + 5) 0 ^^^ st.getD (x + 10) 0 ^^^
      st.getD (x + 15) 0 ^^^ st.getD (x + 20) 0)
  let d := (List.range 5).map (fun x =>
    c.getD ((x + 4) % 5) 0 ^^^ rotl64 (c.getD ((x + 1) % 5) 0) 1)
  (List.range 25).map (fun i => st.getD i 0 ^^^ d.getD (i % 5) 0)

/-- For output lane `j`, the source lane and rotation of the combined rho+pi
step `B[y, 2x+3y] = rotl(A[x, y], r[x, y])`. -/
def piSrc : List (Nat × Nat) :=
  [(0, 0), (6, 44), (12, 43), (18, 21), (24, 14),
   (3, 28), (9, 20), (10, 3), (16, 45), (22, 61),
   (1, 1), (7, 6), (13, 25), (19, 8), (20, 18),
   (4, 27), (5, 36), (11, 10), (17, 15), (23, 56),
   (2, 62), (8, 55), (14, 39), (15, 41), (21, 2)]

/-- Combined rho (rotations) and pi (lane permutation) steps. -/
def rhoPi (st : List Nat) : List Nat :=
  piSrc.map (fun p => rotl64 (st.getD p.1 0) p.2)

/-- Chi step: `A[x,y] = B[x,y] xor ((not B[x+1,y]) and B[x+2,y])`. -/
def chi (st : List Nat) : List Nat :=
  (List.range 25).map (fun i =>
    let x := i % 5
    let y5 := i - x
    st.getD i 0 ^^^
      ((st.getD (y5 + (x + 1) % 5) 0 ^^^ (M64 - 1)) &&& st.getD (y5 + (x + 2) % 5) 0))

/-- Iota step: xor the round constant into lane 0. -/
def iotaStep (rc : Nat) (st : List Nat) : List Nat :=
  match st with
  | [] => []
  | a :: rest => (a ^^^ rc) :: rest

/-- One round of Keccak-f[1600]. -/
def keccakRound (st : List Nat) (rc : Nat) : List Nat :=
  iotaStep rc (chi (rhoPi (theta st)))

/-- The full 24-round Keccak-f[1600] permutation. -/
def keccakF (st : List Nat) : List Nat :=
  keccakRC.foldl keccakRound st

/-- 8 bytes, little-endian, to one 64-bit lane. -/
def laneOfBytes (bs : List Nat) : Nat :=
  bs.foldr (fun b acc => b + 256 * acc) 0

/-- One 64-bit lane to 8 little-endian bytes. -/
def laneToBytes (x : Nat) : List Nat :=
  (List.range 8).map (fun i => x / 256 ^ i % 256)

/-- Keccak multi-rate padding to a multiple of the 136-byte rate
(0x01 first pad byte, 0x80 last; 0x81 when a single byte is added). -/
def keccakPad (msg : List Nat) : List Nat :=
  let q := 136 - msg.length % 136
  if q = 1 then msg ++ [0x81]
  else msg ++ [0x01] ++ List.replicate (q - 2) 0 ++ [0x80]

/-- Split a padded message into rate-sized (136-byte) blocks; the fuel is the
length of the list, enough since every step consumes at least one byte. -/
def splitBlocksAux : Nat → List Nat → List (List Nat)
  | 0, _ => []
  | _ + 1, [] => []
  | n + 1, b :: rest => (b :: rest.take 135) :: splitBlocksAux n (rest.drop 135)

def splitBlocks (l : List Nat) : List (List Nat) :=
  splitBlocksAux l.length l

/-- Absorb one 136-byte block: xor it into the first 17 lanes, then permute. -/
def absorbBlock (st : List Nat) (block : List Nat) : List Nat :=
  keccakF ((List.range 25).map (fun i =>
    st.getD i 0 ^^^ (if i < 17 then laneOfBytes ((block.drop (8 * i)).take 8) else 0)))

/-- Keccak-256 of a byte sequence: the 32-byte digest. -/
def keccak256 (msg : List Nat) : List Nat :=
  let st := (splitBlocks (keccakPad msg)).foldl absorbBlock (List.replicate 25 0)
  ((st.take 4).map laneToBytes).flatten

/-- A lowercase hex digit. -/
def hexDigit (n : Nat) : Char :=
  if n < 10 then Char.ofNat (48 + n) else Char.ofNat (87 + n)

/-- Two lowercase hex digits of one byte. -/
def byteHex (b : Nat) : String :=
  String.mk [hexDigit (b / 16 % 16), hexDigit (b % 16)]

/-- `bytes.hex()`: lowercase hex, two digits per byte. -/
def bytesToHex : List Nat → String
  | [] => ""
  | b :: rest => byteHex b ++ bytesToHex rest

/-- UTF-8 encoding of one code point. -/
def utf8EncodeChar (c : Nat) : List Nat :=
  if c < 0x80 then [c]
  else if c < 0x800 then
    [0xC0 ||| (c >>> 6), 0x80 ||| (c &&& 0x3F)]
  else if c < 0x10000 then
    [0xE0 ||| (c >>> 12), 0x80 ||| ((c >>> 6) &&& 0x3F), 0x80 ||| (c &&& 0x3F)]
  else
    [0xF0 ||| (c >>> 18), 0x80 ||| ((c >>> 12) &&& 0x3F),
     0x80 ||| ((c >>> 6) &&& 0x3F), 0x80 ||| (c &&& 0x3F)]

/-- UTF-8 bytes of a string. -/
def utf8Bytes (s : String) : List Nat :=
  (s.data.map (fun c => utf8EncodeChar c.toNat)).flatten

/-- `"0x" + keccak(text=s).hex()` (src/event.py line 31). -/
def keccakTopic (s : String) : String :=
  "0x" ++ bytesToHex (keccak256 (utf8Bytes s))

/-! ## ABI values and the signature mapper
(`build_event_signature_map`, src/event.py lines 17–33)

The ABI file is arbitrary JSON, so items are modelled as JSON values
(numbers restricted to integers; the tool never reads numeric ABI fields). -/

inductive Json where
  | null
  | bool (b : Bool)
  | num (n : Int)
  | str (s : String)
  | arr (xs : List Json)
  | obj (kvs : List (String × Json))

/-- Python truthiness (`if not name`). -/
def jsonTruthy : Json → Bool
  | .null => false
  | .bool b => b
  | .num n => n ≠ 0
  | .str s => s ≠ ""
  | .arr xs => ¬ xs.isEmpty
  | .obj kvs => ¬ kvs.isEmpty

/-- Python `repr` of a JSON value (exact on the atoms; string quoting without
escape sequences, which the tool never produces). -/
def pyRepr : Json → String
  | .null => "None"
  | .bool true => "True"
  | .bool false => "False"
  | .num n => toString n
  | .str s => "'" ++ s ++ "'"
  | .arr xs => "[" ++ String.intercalate ", " (xs.attach.map (fun x => pyRepr x.1)) ++ "]"
  | .obj kvs =>
    "\x7b" ++
      String.intercalate ", "
        (kvs.attach.map (fun kv => "'" ++ kv.1.1 ++ "': " ++ pyRepr kv.1.2)) ++
      "\x7d"
termination_by v => sizeOf v
decreasing_by
  · have h := List.sizeOf_lt_of_mem x.2
    simp only [Json.arr.sizeOf_spec]
    omega
  · have h := List.sizeOf_lt_of_mem kv.2
    have h2 : sizeOf kv.1.2 < sizeOf kv.1 := by
      obtain ⟨⟨a, b⟩, hm⟩ := kv
      simp only []
      simp
    simp only [Json.obj.sizeOf_spec]
    omega

/-- Python `str` (as used by the f-string `f"{name}({arg_types})"`). -/
def pyStr : Json → String
  | .str s => s
  | v => pyRepr v

/-- One entry of the topic map: `{"name": ..., "inputs": ..., "signature": ...}`
(src/event.py line 32).  The name is stored through the same `str` conversion
the f-string applies (a no-op for JSON string names). -/
structure SigEntry where
  name : String
  inputs : List Json
  signature : String

/-- Look up a key in a JSON object. -/
def jget (kvs : List (String × Json)) (k : String) : Option Json :=
  dget kvs k

/-- The generator `(i["type"] for i in inputs)` as CPython's `str.join`
materialises it: subscripting a non-dict is a `TypeError`, a missing key a
`KeyError`. -/
def genTypes : List Json → Except String (List Json)
  | [] => .ok []
  | i :: rest =>
    match i with
    | .obj kvs =>
      match jget kvs "type" with
      | some v => (genTypes rest).map (fun vs => v :: vs)
      | none => .error "KeyError: 'type'"
    | _ => .error "TypeError: value is not subscriptable"

/-- `str.join` requires every item to be a `str`. -/
def joinStrs : List Json → Except String (List String)
  | [] => .ok []
  | .str s :: rest => (joinStrs rest).map (fun ss => s :: ss)
  | _ :: _ => .error "TypeError: sequence item: expected str instance"

/-- `",".join(i["type"] for i in inputs)` (src/event.py line 29). -/
def argTypesOf (ins : List Json) : Except String String :=
  match genTypes ins with
  | .error e => .error e
  | .ok vs =>
    match joinStrs vs with
    | .error e => .error e
    | .ok tys => .ok (String.intercalate "," tys)

/-- The body of the `for item in abi` loop (src/event.py lines 22–32): skip
non-events, items with a falsy name or a non-list `inputs`; otherwise derive
the signature, hash it, and insert (last writer wins on a repeated topic). -/
def sigMapStep (acc : List (String × SigEntry)) (item : Json) :
    Except String (List (String × SigEntry)) :=
  match item with
  | .obj kvs =>
    match jget kvs "type" with
    | some (.str ty) =>
      if ty = "event" then
        let name := (jget kvs "name").getD .null
        let inputs := (jget kvs "inputs").getD (.arr [])
        if ¬ jsonTruthy name then .ok acc
        else
          match inputs with
          | .arr ins =>
            match argTypesOf ins with
            | .error e => .error e
            | .ok argTypes =>
              let signature := pyStr name ++ "(" ++ argTypes ++ ")"
              let topic := keccakTopic signature
              .ok (dset acc topic ⟨pyStr name, ins, signature⟩)
          | _ => .ok acc
      else .ok acc
    | _ => .ok acc
  | _ => .error "AttributeError: value has no attribute get"

/-- `build_event_signature_map(abi)` (src/event.py lines 17–33); `.error`
models an uncaught exception escaping the function. -/
def build_event_signature_map (abi : List Json) :
    Except String (List (String × SigEntry)) :=
  abi.foldlM sigMapStep []

/-! ## Log classification and reporting (`main`, src/event.py lines 127–207)

A log record is modelled by its list of topic strings (`Web3.to_hex` of the
raw values, a black-box formatter).  The pipeline below is `main` from the
fetch step onward; CLI parsing, connection, range and file loading happen
before it and are black-box (their failures are the exit-1 paths of lines
76–125). -/

structure Log where
  topics : List String
deriving DecidableEq

/-- One iteration of the `for lg in logs` tally loop (src/event.py
lines 139–146): state is `(counts_by_topic, unknown_topics)`. -/
def classifyStep (tm : List (String × SigEntry))
    (p : List (String × Nat) × List (String × Nat)) (lg : Log) :
    List (String × Nat) × List (String × Nat) :=
  match lg.topics with
  | [] => p
  | t0 :: _ =>
    let cbt := bump p.1 t0 1
    let unk :=
      match dget tm t0 with
      | some _ => p.2
      | none => bump p.2 t0 1
    (cbt, unk)

/-- The tally loop: `(counts_by_topic, unknown_topics)` after all logs. -/
def classify (tm : List (String × SigEntry)) (logs : List Log) :
    List (String × Nat) × List (String × Nat) :=
  logs.foldl (classifyStep tm) ([], [])

/-- The synthetic fallback label `f"UNKNOWN({topic[:10]}…)"`. -/
def fallbackName (topic : String) : String :=
  "UNKNOWN(" ++ topic.take 10 ++ "…)"

/-- `topic_map.get(topic, {}).get("name", fallback)` (src/event.py line 151);
entries built by the mapper always carry a name. -/
def resolveName (tm : List (String × SigEntry)) (topic : String) : String :=
  match dget tm topic with
  | some e => e.name
  | none => fallbackName topic

/-- The `counts_by_name` accumulation loop (src/event.py lines 149–152). -/
def countsByName (tm : List (String × SigEntry)) (cbt : List (String × Nat)) :
    List (String × Nat) :=
  cbt.foldl (fun d p => bump d (resolveName tm p.1) p.2) []

/-- Python's `str.startswith`: prefix test on the code points. -/
def pyStartsWith (s pre : String) : Bool :=
  pre.data.isPrefixOf s.data

/-- The required-events check (src/event.py lines 154–160): `[]` when no list
was supplied (or the supplied list is empty, which is falsy). -/
def missingRequiredOf (required : Option (List String))
    (cbn : List (String × Nat)) : List String :=
  match required with
  | none => []
  | some req =>
    if req.isEmpty then []
    else
      let presentNames := (cbn.map Prod.fst).filter (fun n => ¬ pyStartsWith n "UNKNOWN(")
      req.filter (fun r => ¬ r ∈ presentNames)

/-- The exit-code policy (src/event.py lines 203–207). -/
def exitCodeOf (unknownTopics : List (String × Nat)) (missing : List String) : Nat :=
  let bad := ¬ unknownTopics.isEmpty ∨ ¬ missing.isEmpty
  if bad then 2 else 0

/-- `fetch_logs`' accumulation loop (src/event.py lines 51–59) over an
already-chunked range list: the per-chunk `w3.eth.get_logs` call is the
black-box `query`; its first exception aborts the whole fetch. -/
def fetchChunks (query : Int → Int → Except String (List Log)) :
    List (Int × Int) → Except String (List Log)
  | [] => .ok []
  | (a, b) :: rest =>
    match query a b with
    | .error e => .error e
    | .ok logs => (fetchChunks query rest).map (fun more => logs ++ more)

/-- `fetch_logs(w3, address, from_block, to_block, step)` (src/event.py
lines 47–59); the outer `Option` is `chunk_ranges`' divergence marker. -/
def fetch_logs (query : Int → Int → Except String (List Log))
    (fromBlock toBlock step : Int) : Option (Except String (List Log)) :=
  (chunk_ranges fromBlock toBlock step).map (fetchChunks query)

/-- The per-run report (the fields of the `--json` summary that the analysis
phase computes; src/event.py lines 186–201). -/
structure Report where
  counts_by_topic : List (String × Nat)
  counts_by_name : List (String × Nat)
  unknown_topics : List (String × Nat)
  missing_events : List String
deriving DecidableEq

/-- `main` from the fetch step to `sys.exit` (src/event.py lines 127–207):
`.error e` is the `except`/`sys.exit(1)` path with no report; `.ok (r, c)` a
completed run with report `r` and exit code `c`.  The step passed on is
`max(1, args.step)` (line 129). -/
def runAfterSetup (tm : List (String × SigEntry))
    (query : Int → Int → Except String (List Log))
    (fromBlock toBlock step : Int) (required : Option (List String)) :
    Option (Except String (Report × Nat)) :=
  (fetch_logs query fromBlock toBlock (max 1 step)).map (fun fetched =>
    match fetched with
    | .error e => .error e
    | .ok logs =>
      let tallies := classify tm logs
      let cbn := countsByName tm tallies.1
      let missing := missingRequiredOf required cbn
      .ok (⟨tallies.1, cbn, tallies.2, missing⟩, exitCodeOf tallies.2 missing))

/-! ## Lemmas about the dict model -/

theorem dget_dset_self {α : Type} (d : List (String × α)) (k : String) (v : α) :
    dget (dset d k v) k = some v := by
  induction d with
  | nil => simp [dget, dset]
  | cons p rest ih =>
    obtain ⟨k', v'⟩ := p
    by_cases h : k' = k
    · simp [dset, h, dget]
    · simp [dset, h, dget, ih]

theorem dget_dset_ne {α : Type} (d : List (String × α)) {k k' : String} (v : α)
    (h : k' ≠ k) : dget (dset d k v) k' = dget d k' := by
  induction d with
  | nil => simp [dget, dset, Ne.symm h]
  | cons p rest ih =>
    obtain ⟨k₀, v₀⟩ := p
    by_cases h0 : k₀ = k
    · subst h0
      simp [dset, dget, Ne.symm h]
    · by_cases h1 : k₀ = k'
      · simp [dset, h0, dget, h1, h]
      · simp [dset, h0, dget, h1, ih]

theorem dgetD_bump (d : List (String × Nat)) (k k' : String) (c : Nat) :
    dgetD (bump d k c) k' 0 = dgetD d k' 0 + if k' = k then c else 0 := by
  by_cases h : k' = k
  · subst h
    simp [bump, dgetD, dget_dset_self]
  · simp [bump, dgetD, dget_dset_ne _ _ h, h]

theorem dget_bump_ne (d : List (String × Nat)) {k k' : String} (c : Nat)
    (h : k' ≠ k) : dget (bump d k c) k' = dget d k' :=
  dget_dset_ne _ _ h

theorem dget_bump_isSome (d : List (String × Nat)) (k k' : String) (c : Nat) :
    (dget (bump d k c) k').isSome ↔ k' = k ∨ (dget d k').isSome := by
  by_cases h : k' = k
  · subst h
    simp [bump, dget_dset_self]
  · simp [dget_bump_ne _ _ h, h]

theorem bump_cons_ne (rest : List (String × Nat)) {k k' : String} (v' c : Nat)
    (h : k' ≠ k) : bump ((k', v') :: rest) k c = (k', v') :: bump rest k c := by
  simp [bump, dgetD, dget, h, dset]

theorem valsSum_bump (d : List (String × Nat)) (k : String) (c : Nat) :
    valsSum (bump d k c) = valsSum d + c := by
  induction d with
  | nil => simp [bump, dgetD, dget, dset, valsSum]
  | cons p rest ih =>
    obtain ⟨k', v'⟩ := p
    by_cases h : k' = k
    · subst h
      simp [bump, dgetD, dget, dset, valsSum]
      omega
    · rw [bump_cons_ne _ _ _ h]
      simp [valsSum] at ih ⊢
      omega

/-! ## Lemmas about the chunker -/

theorem chunkAux_stop (e step : Int) (fuel : Nat) (cur : Int) (h : e < cur) :
    chunkRangesAux fuel cur e step = some [] := by
  have h' : ¬ cur ≤ e := by omega
  cases fuel <;> simp [chunkRangesAux, h']

theorem chunkAux_isSome (e step : Int) (hst : 1 ≤ step) :
    ∀ fuel cur, (e + 1 - cur).toNat ≤ fuel → (chunkRangesAux fuel cur e step).isSome := by
  intro fuel
  induction fuel with
  | zero =>
    intro cur h
    have h' : ¬ cur ≤ e := by omega
    simp [chunkRangesAux, h']
  | succ n ih =>
    intro cur h
    by_cases hcur : cur ≤ e
    · have hrec := ih (min (cur + step - 1) e + 1) (by omega)
      simp only [chunkRangesAux, if_pos hcur]
      cases hx : chunkRangesAux n (min (cur + step - 1) e + 1) e step with
      | none => rw [hx] at hrec; simp at hrec
      | some rest => simp
    · simp [chunkRangesAux, hcur]

theorem chunk_ranges_isSome (s e step : Int) (hst : 1 ≤ step) :
    (chunk_ranges s e step).isSome :=
  chunkAux_isSome e step hst _ s (by omega)

/-- Everything C4 asserts about the output list, relative to `[s, e]`. -/
def ChunksOK (s e step : Int) (l : List (Int × Int)) : Prop :=
  l ≠ [] ∧
  (l.map Prod.fst).head? = some s ∧
  (l.map Prod.snd).getLast? = some e ∧
  List.Chain' (fun p q : Int × Int => p.2 + 1 = q.1) l ∧
  (∀ p ∈ l, p.1 ≤ p.2 ∧ p.2 - p.1 + 1 ≤ step) ∧
  l.length = ((e - s + 1).toNat + step.toNat - 1) / step.toNat

theorem chunkAux_spec (e step : Int) (hst : 1 ≤ step) :
    ∀ fuel cur l, cur ≤ e → chunkRangesAux fuel cur e step = some l →
      ChunksOK cur e step l := by
  intro fuel
  induction fuel with
  | zero =>
    intro cur l hcur h
    simp [chunkRangesAux, if_pos hcur] at h
  | succ n ih =>
    intro cur l hcur h
    simp only [chunkRangesAux, if_pos hcur, Option.map_eq_some'] at h
    obtain ⟨rest, hrest, rfl⟩ := h
    by_cases hend : cur + step - 1 < e
    · have hm : min (cur + step - 1) e = cur + step - 1 := min_eq_left (by omega)
      rw [hm] at hrest
      have hrec := ih (cur + step - 1 + 1) rest (by omega) hrest
      obtain ⟨hne, hhead, hlast, hchain, hbounds, hlen⟩ := hrec
      obtain ⟨r0, rest', rfl⟩ := List.exists_cons_of_ne_nil hne
      have hr0 : r0.1 = cur + step - 1 + 1 := by
        simp at hhead
        omega
      refine ⟨by simp, by simp, ?_, ?_, ?_, ?_⟩
      · simpa using hlast
      · rw [List.chain'_cons']
        refine ⟨?_, hchain⟩
        intro b hb
        simp at hb
        subst hb
        simp [hm, hr0]
      · intro p hp
        rcases List.mem_cons.mp hp with hp | hp
        · subst hp
          constructor <;> simp [hm] <;> omega
        · exact hbounds p hp
      · have hn : (e - (cur + step - 1 + 1) + 1).toNat
            = (e - cur + 1).toNat - step.toNat := by omega
        have hlt : step.toNat < (e - cur + 1).toNat := by omega
        rw [hn] at hlen
        simp only [List.length_cons] at hlen ⊢
        have e1 : (e - cur + 1).toNat + step.toNat - 1
            = ((e - cur + 1).toNat - 1) + step.toNat := by omega
        have e2 : (e - cur + 1).toNat - step.toNat + step.toNat - 1
            = (((e - cur + 1).toNat - 1) - step.toNat) + step.toNat := by omega
        rw [e1, Nat.add_div_right _ (by omega)]
        rw [e2, Nat.add_div_right _ (by omega)] at hlen
        have hdiv : ((e - cur + 1).toNat - 1) / step.toNat
            = (((e - cur + 1).toNat - 1) - step.toNat) / step.toNat + 1 := by
          rw [Nat.div_eq_sub_div (by omega) (by omega)]
        omega
    · have hm : min (cur + step - 1) e = e := min_eq_right (by omega)
      rw [hm] at hrest
      rw [chunkAux_stop e step n (e + 1) (by omega)] at hrest
      obtain rfl : rest = [] := by
        injection hrest with h
        exact h.symm
      rw [hm]
      refine ⟨by simp, by simp, by simp, by simp, ?_, ?_⟩
      · intro p hp
        simp at hp
        subst hp
        constructor <;> simp <;> omega
      · have h1 : 1 ≤ (e - cur + 1).toNat := by omega
        have h2 : (e - cur + 1).toNat ≤ step.toNat := by omega
        have : ((e - cur + 1).toNat + step.toNat - 1)
            = ((e - cur + 1).toNat - 1) + step.toNat := by omega
        simp only [List.length_cons, List.length_nil]
        rw [this, Nat.add_div_right _ (by omega), Nat.div_eq_of_lt (by omega)]

/-! ## Lemmas about the tally loop -/

theorem dget_bump_self (d : List (String × Nat)) (k : String) (c : Nat) :
    dget (bump d k c) k = some (dgetD d k 0 + c) :=
  dget_dset_self d k _

/-- The number of logs whose first topic is `t`. -/
def headTopicCount (logs : List Log) (t : String) : Nat :=
  (logs.filter (fun lg => lg.topics.head? == some t)).length

/-- The number of logs with at least one topic. -/
def nonEmptyCount (logs : List Log) : Nat :=
  (logs.filter (fun lg => !lg.topics.isEmpty)).length

theorem tally_cbt_count (tm : List (String × SigEntry)) (t : String) :
    ∀ (logs : List Log) (acc : List (String × Nat) × List (String × Nat)),
      dgetD (logs.foldl (classifyStep tm) acc).1 t 0
        = dgetD acc.1 t 0 + headTopicCount logs t := by
  intro logs
  induction logs with
  | nil => intro acc; simp [headTopicCount]
  | cons lg rest ih =>
    intro acc
    rw [List.foldl_cons]
    rw [ih]
    cases h : lg.topics with
    | nil =>
      simp [classifyStep, h, headTopicCount, List.filter]
    | cons t0 ts =>
      simp only [classifyStep, h]
      rw [dgetD_bump]
      by_cases ht : t = t0
      · subst ht
        simp [headTopicCount, List.filter, h]
        omega
      · have hb : (t0 == t) = false := by
          simp [Ne.symm ht]
        simp [headTopicCount, List.filter, h, hb, ht]

theorem tally_cbt_sum (tm : List (String × SigEntry)) :
    ∀ (logs : List Log) (acc : List (String × Nat) × List (String × Nat)),
      valsSum (logs.foldl (classifyStep tm) acc).1
        = valsSum acc.1 + nonEmptyCount logs := by
  intro logs
  induction logs with
  | nil => intro acc; simp [nonEmptyCount]
  | cons lg rest ih =>
    intro acc
    rw [List.foldl_cons, ih]
    cases h : lg.topics with
    | nil => simp [classifyStep, h, nonEmptyCount, List.filter]
    | cons t0 ts =>
      simp only [classifyStep, h]
      rw [valsSum_bump]
      simp [nonEmptyCount, List.filter, h]
      omega

theorem tally_skips_empty (tm : List (String × SigEntry)) :
    ∀ (logs : List Log) (acc : List (String × Nat) × List (String × Nat)),
      logs.foldl (classifyStep tm) acc
        = (logs.filter (fun lg => !lg.topics.isEmpty)).foldl (classifyStep tm) acc := by
  intro logs
  induction logs with
  | nil => intro acc; simp
  | cons lg rest ih =>
    intro acc
    cases h : lg.topics with
    | nil =>
      have hstep : classifyStep tm acc lg = acc := by simp [classifyStep, h]
      rw [List.foldl_cons, hstep]
      simp [List.filter, h, ih]
    | cons t0 ts =>
      rw [List.foldl_cons]
      simp [List.filter, h]
      rw [ih]

theorem tally_unknown_eq (tm : List (String × SigEntry)) (t : String)
    (hu : dget tm t = none) :
    ∀ (logs : List Log) (acc : List (String × Nat) × List (String × Nat)),
      dget acc.2 t = dget acc.1 t →
      dget (logs.foldl (classifyStep tm) acc).2 t
        = dget (logs.foldl (classifyStep tm) acc).1 t := by
  intro logs
  induction logs with
  | nil => intro acc hacc; simpa using hacc
  | cons lg rest ih =>
    intro acc hacc
    rw [List.foldl_cons]
    apply ih
    cases h : lg.topics with
    | nil => simpa [classifyStep, h] using hacc
    | cons t0 ts =>
      simp only [classifyStep, h]
      by_cases ht : t = t0
      · subst ht
        rw [hu]
        simp only [dget_bump_self]
        have : dgetD acc.2 t 0 = dgetD acc.1 t 0 := by
          simp [dgetD, hacc]
        rw [this]
      · rw [dget_bump_ne _ _ ht]
        cases hres : dget tm t0 with
        | some entry => simpa using hacc
        | none => rw [dget_bump_ne _ _ ht]; exact hacc

theorem tally_unknown_sub (tm : List (String × SigEntry)) (t : String) :
    ∀ (logs : List Log) (acc : List (String × Nat) × List (String × Nat)),
      (dget (logs.foldl (classifyStep tm) acc).2 t).isSome →
      (dget acc.2 t).isSome ∨ dget tm t = none := by
  intro logs
  induction logs with
  | nil => intro acc h; exact Or.inl h
  | cons lg rest ih =>
    intro acc h
    rw [List.foldl_cons] at h
    rcases ih (classifyStep tm acc lg) h with h' | h'
    · cases hts : lg.topics with
      | nil => simp [classifyStep, hts] at h'; exact Or.inl h'
      | cons t0 ts =>
        simp only [classifyStep, hts] at h'
        cases hres : dget tm t0 with
        | some entry => rw [hres] at h'; exact Or.inl h'
        | none =>
          rw [hres] at h'
          rcases (dget_bump_isSome _ _ _ _).mp h' with rfl | h''
          · exact Or.inr hres
          · exact Or.inl h''
    · exact Or.inr h'

/-! ## Lemmas about the counts-by-name loop -/

theorem cbn_count (tm : List (String × SigEntry)) (nm : String) :
    ∀ (cbt : List (String × Nat)) (acc : List (String × Nat)),
      dgetD (cbt.foldl (fun d p => bump d (resolveName tm p.1) p.2) acc) nm 0
        = dgetD acc nm 0
          + ((cbt.filter (fun p => resolveName tm p.1 == nm)).map Prod.snd).sum := by
  intro cbt
  induction cbt with
  | nil => intro acc; simp
  | cons p rest ih =>
    intro acc
    rw [List.foldl_cons, ih, dgetD_bump]
    by_cases h : resolveName tm p.1 = nm
    · simp [List.filter, h]
      omega
    · have hb : (resolveName tm p.1 == nm) = false := by
        simp [h]
      simp [List.filter, hb, h]
      exact fun hc => absurd hc.symm h

/-! ## Lemmas about the fetch loop -/

theorem fetchChunks_all_ok (query : Int → Int → Except String (List Log))
    (results : Int × Int → List Log) :
    ∀ chunks : List (Int × Int), (∀ p ∈ chunks, query p.1 p.2 = .ok (results p)) →
      fetchChunks query chunks = .ok ((chunks.map results).flatten) := by
  intro chunks
  induction chunks with
  | nil => intro _; simp [fetchChunks]
  | cons p rest ih =>
    intro h
    obtain ⟨a, b⟩ := p
    have hp := h (a, b) (List.mem_cons_self _ _)
    simp only [fetchChunks, hp]
    rw [ih (fun q hq => h q (List.mem_cons_of_mem _ hq))]
    simp [Except.map]

theorem fetchChunks_fail (query : Int → Int → Except String (List Log)) :
    ∀ chunks : List (Int × Int),
      (∃ p ∈ chunks, ∃ msg, query p.1 p.2 = .error msg) →
      ∃ msg, fetchChunks query chunks = .error msg := by
  intro chunks
  induction chunks with
  | nil => rintro ⟨p, hp, _⟩; simp at hp
  | cons p rest ih =>
    rintro ⟨q, hq, msg, hmsg⟩
    obtain ⟨a, b⟩ := p
    cases hab : query a b with
    | error e => exact ⟨e, by simp [fetchChunks, hab]⟩
    | ok logs =>
      rcases List.mem_cons.mp hq with rfl | hq'
      · rw [hab] at hmsg
        exact absurd hmsg (by simp)
      · obtain ⟨msg', hm⟩ := ih ⟨q, hq', msg, hmsg⟩
        exact ⟨msg', by simp [fetchChunks, hab, hm, Except.map]⟩

/-! ## Lemmas about the signature mapper -/

/-- An ABI item is a JSON array. -/
def jsonIsArr : Json → Bool
  | .arr _ => true
  | _ => false

theorem sigMapStep_skip_type (acc : List (String × SigEntry))
    (kvs : List (String × Json)) (h : jget kvs "type" ≠ some (.str "event")) :
    sigMapStep acc (.obj kvs) = .ok acc := by
  cases hres : jget kvs "type" with
  | none => simp [sigMapStep, hres]
  | some v =>
    cases v with
    | str s =>
      have hs : s ≠ "event" := by
        intro hc
        subst hc
        exact h hres
      simp [sigMapStep, hres, hs]
    | null => simp [sigMapStep, hres]
    | bool b => simp [sigMapStep, hres]
    | num n => simp [sigMapStep, hres]
    | arr xs => simp [sigMapStep, hres]
    | obj kvs' => simp [sigMapStep, hres]

theorem sigMapStep_skip_name (acc : List (String × SigEntry))
    (kvs : List (String × Json))
    (hname : jsonTruthy ((jget kvs "name").getD .null) = false) :
    sigMapStep acc (.obj kvs) = .ok acc := by
  cases hres : jget kvs "type" with
  | none => simp [sigMapStep, hres]
  | some v =>
    cases v with
    | str s =>
      by_cases hs : s = "event"
      · subst hs
        simp [sigMapStep, hres, hname]

      · simp [sigMapStep, hres, hs]
    | null => simp [sigMapStep, hres]
    | bool b => simp [sigMapStep, hres]
    | num n => simp [sigMapStep, hres]
    | arr xs => simp [sigMapStep, hres]
    | obj kvs' => simp [sigMapStep, hres]

theorem sigMapStep_skip_inputs (acc : List (String × SigEntry))
    (kvs : List (String × Json))
    (hinputs : jsonIsArr ((jget kvs "inputs").getD (.arr [])) = false) :
    sigMapStep acc (.obj kvs) = .ok acc := by
  cases hres : jget kvs "type" with
  | none => simp [sigMapStep, hres]
  | some v =>
    cases v with
    | str s =>
      by_cases hs : s = "event"
      · subst hs
        by_cases hn : jsonTruthy ((jget kvs "name").getD .null)
        · cases hin : (jget kvs "inputs").getD (.arr []) with
          | arr xs => rw [hin] at hinputs; simp [jsonIsArr] at hinputs
          | null => simp [sigMapStep, hres, hn, hin]
          | bool b => simp [sigMapStep, hres, hn, hin]
          | num n => simp [sigMapStep, hres, hn, hin]
          | str t => simp [sigMapStep, hres, hn, hin]
          | obj kvs' => simp [sigMapStep, hres, hn, hin]
        · simp [sigMapStep, hres, Bool.not_eq_true _ ▸ hn]
      · simp [sigMapStep, hres, hs]
    | null => simp [sigMapStep, hres]
    | bool b => simp [sigMapStep, hres]
    | num n => simp [sigMapStep, hres]
    | arr xs => simp [sigMapStep, hres]
    | obj kvs' => simp [sigMapStep, hres]

theorem foldlM_all_skip (abi : List Json)
    (h : ∀ item ∈ abi, ∀ acc : List (String × SigEntry), sigMapStep acc item = .ok acc) :
    ∀ acc, abi.foldlM sigMapStep acc = .ok acc := by
  induction abi with
  | nil => intro acc; rfl
  | cons item rest ih =>
    intro acc
    have hstep := h item (List.mem_cons_self _ _) acc
    simp only [List.foldlM, hstep]
    exact ih (fun i hi a => h i (List.mem_cons_of_mem _ hi) a) acc

/-- A well-formed event definition: string name, inputs all `{type: str}`. -/
def eventItem (nm : String) (tys : List String) : Json :=
  .obj [("type", .str "event"), ("name", .str nm),
        ("inputs", .arr (tys.map (fun t => .obj [("type", .str t)])))]

theorem genTypes_map (tys : List String) :
    genTypes (tys.map (fun t => Json.obj [("type", Json.str t)]))
      = .ok (tys.map Json.str) := by
  induction tys with
  | nil => rfl
  | cons t rest ih => simp [genTypes, jget, dget, ih, Except.map]

theorem joinStrs_map (tys : List String) : joinStrs (tys.map Json.str) = .ok tys := by
  induction tys with
  | nil => rfl
  | cons t rest ih => simp [joinStrs, ih, Except.map]

theorem argTypesOf_map (tys : List String) :
    argTypesOf (tys.map (fun t => Json.obj [("type", Json.str t)]))
      = .ok (String.intercalate "," tys) := by
  simp [argTypesOf, genTypes_map, joinStrs_map]

theorem sigMapStep_event (acc : List (String × SigEntry)) (nm : String)
    (tys : List String) (hnm : nm ≠ "") :
    sigMapStep acc (eventItem nm tys)
      = .ok (dset acc (keccakTopic (nm ++ "(" ++ String.intercalate "," tys ++ ")"))
          ⟨nm, tys.map (fun t => .obj [("type", .str t)]),
           nm ++ "(" ++ String.intercalate "," tys ++ ")"⟩) := by
  have htr : jsonTruthy (Json.str nm) = true := by simp [jsonTruthy, hnm]
  simp [sigMapStep, eventItem, jget, dget, htr, argTypesOf_map, pyStr]

/-! ## Lengths of the topic-hash string -/

theorem laneToBytes_length (x : Nat) : (laneToBytes x).length = 8 := by
  simp [laneToBytes]

theorem iotaStep_length (rc : Nat) (st : List Nat) :
    (iotaStep rc st).length = st.length := by
  cases st <;> simp [iotaStep]

theorem chi_length (st : List Nat) : (chi st).length = 25 := by
  unfold chi
  rw [List.length_map, List.length_range]

theorem keccakRound_length (st : List Nat) (rc : Nat) :
    (keccakRound st rc).length = 25 := by
  unfold keccakRound
  rw [iotaStep_length, chi_length]

theorem foldl_keccakRound_length (rcs : List Nat) :
    ∀ st : List Nat, st.length = 25 → (rcs.foldl keccakRound st).length = 25 := by
  induction rcs with
  | nil => intro st h; simpa using h
  | cons rc rest ih => intro st h; exact ih _ (keccakRound_length st rc)

theorem absorbBlock_length (st block : List Nat) :
    (absorbBlock st block).length = 25 := by
  unfold absorbBlock keccakF
  exact foldl_keccakRound_length keccakRC _ (by rw [List.length_map, List.length_range])

theorem foldl_absorbBlock_length (blocks : List (List Nat)) :
    ∀ st : List Nat, st.length = 25 → (blocks.foldl absorbBlock st).length = 25 := by
  induction blocks with
  | nil => intro st h; simpa using h
  | cons b rest ih => intro st h; exact ih _ (absorbBlock_length st b)

theorem keccak256_length (msg : List Nat) : (keccak256 msg).length = 32 := by
  unfold keccak256
  have h25 := foldl_absorbBlock_length (splitBlocks (keccakPad msg))
    (List.replicate 25 0) (by simp)
  rw [List.length_flatten]
  rw [List.map_map]
  have : (List.length ∘ laneToBytes) = fun _ : Nat => 8 := by
    funext x
    exact laneToBytes_length x
  rw [this, List.map_const', List.sum_replicate, List.length_take, h25]
  norm_num

theorem bytesToHex_length (bs : List Nat) :
    (bytesToHex bs).length = 2 * bs.length := by
  induction bs with
  | nil => rfl
  | cons b rest ih =>
    simp [bytesToHex, String.length_append, ih, byteHex]
    omega

theorem keccakTopic_length (s : String) : (keccakTopic s).length = 66 := by
  simp [keccakTopic, String.length_append, bytesToHex_length, keccak256_length]
  rfl

/-! ## Lemmas about the required-events check -/

theorem missingRequired_filter (req : List String) (cbn : List (String × Nat)) :
    missingRequiredOf (some req) cbn
      = req.filter (fun r =>
          !(cbn.map Prod.fst).contains r || pyStartsWith r "UNKNOWN(") := by
  by_cases hreq : req.isEmpty
  · obtain rfl : req = [] := by simpa [List.isEmpty_iff] using hreq
    simp [missingRequiredOf]
  · simp only [missingRequiredOf, if_neg hreq]
    apply List.filter_congr
    intro r _
    by_cases h1 : r ∈ cbn.map Prod.fst <;>
      by_cases h2 : pyStartsWith r "UNKNOWN(" <;>
        simp [List.mem_filter, h1, h2]

theorem cbn_sum (tm : List (String × SigEntry)) :
    ∀ (cbt : List (String × Nat)) (acc : List (String × Nat)),
      valsSum (cbt.foldl (fun d p => bump d (resolveName tm p.1) p.2) acc)
        = valsSum acc + valsSum cbt := by
  intro cbt
  induction cbt with
  | nil => intro acc; simp [valsSum]
  | cons p rest ih =>
    intro acc
    rw [List.foldl_cons, ih, valsSum_bump]
    simp [valsSum]
    omega

/-! ## Lemmas about the run pipeline -/

theorem exitCodeOf_iff (u : List (String × Nat)) (m : List String) :
    (exitCodeOf u m = 2 ↔ (u ≠ [] ∨ m ≠ [])) ∧
    (exitCodeOf u m = 0 ↔ (u = [] ∧ m = [])) := by
  unfold exitCodeOf
  by_cases hu : u = [] <;> by_cases hm : m = [] <;>
    simp [hu, hm, List.isEmpty_iff]

theorem runAfterSetup_ok (tm : List (String × SigEntry))
    (query : Int → Int → Except String (List Log))
    (s e step : Int) (required : Option (List String))
    (r : Report) (code : Nat)
    (h : runAfterSetup tm query s e step required = some (.ok (r, code))) :
    ∃ logs,
      fetch_logs query s e (max 1 step) = some (.ok logs) ∧
      r = ⟨(classify tm logs).1, countsByName tm (classify tm logs).1,
           (classify tm logs).2,
           missingRequiredOf required (countsByName tm (classify tm logs).1)⟩ ∧
      code = exitCodeOf (classify tm logs).2
        (missingRequiredOf required (countsByName tm (classify tm logs).1)) := by
  unfold runAfterSetup at h
  cases hf : fetch_logs query s e (max 1 step) with
  | none => rw [hf] at h; exact absurd h (by simp)
  | some fetched =>
    rw [hf] at h
    cases fetched with
    | error msg => exact absurd h (by simp)
    | ok logs =>
      simp only [Option.map_some', Option.some.injEq, Except.ok.injEq,
        Prod.mk.injEq] at h
      obtain ⟨hr, hc⟩ := h
      exact ⟨logs, rfl, hr.symm, hc.symm⟩

theorem runAfterSetup_completes (tm : List (String × SigEntry))
    (query : Int → Int → Except String (List Log))
    (s e step : Int) (required : Option (List String)) (logs : List Log)
    (h : fetch_logs query s e (max 1 step) = some (.ok logs)) :
    ∃ r code, runAfterSetup tm query s e step required = some (.ok (r, code)) := by
  unfold runAfterSetup
  rw [h]
  exact ⟨_, _, rfl⟩

theorem runAfterSetup_isSome (tm : List (String × SigEntry))
    (query : Int → Int → Except String (List Log))
    (s e step : Int) (required : Option (List String)) :
    (runAfterSetup tm query s e step required).isSome := by
  unfold runAfterSetup fetch_logs
  have h := chunk_ranges_isSome s e (max 1 step) (le_max_left _ _)
  cases hc : chunk_ranges s e (max 1 step) with
  | none => rw [hc] at h; simp at h
  | some chunks => simp

theorem chain_imp_pairwise :
    ∀ l : List (Int × Int), List.Chain' (fun p q : Int × Int => p.2 + 1 = q.1) l →
      (∀ p ∈ l, p.1 ≤ p.2) → l.Pairwise (fun p q : Int × Int => p.2 < q.1) := by
  intro l
  induction l with
  | nil => intro _ _; exact List.Pairwise.nil
  | cons p rest ih =>
    intro hc hb
    rw [List.chain'_cons'] at hc
    obtain ⟨hhd, hc'⟩ := hc
    have hp := ih hc' (fun q hq => hb q (List.mem_cons_of_mem _ hq))
    refine List.Pairwise.cons ?_ hp
    intro q hq
    cases rest with
    | nil => simp at hq
    | cons r0 rest' =>
      have h0 : p.2 + 1 = r0.1 := hhd r0 (by simp)
      rcases List.mem_cons.mp hq with rfl | hq'
      · omega
      · have h1 := (List.pairwise_cons.mp hp).1 q hq'
        have h2 := hb r0 (by simp)
        omega

/-! ## The claims -/

/-- C4: for every `start ≤ end` and `step ≥ 1`, `chunk_ranges` terminates and
returns a non-empty ordered sequence of inclusive sub-ranges that partitions
`[start, end]` contiguously with no gaps or overlaps (first component `start`,
last component `end`, each sub-range's end + 1 the next one's start), each
sub-range non-empty of length ≤ `step`, with exactly
`ceil((end-start+1)/step)` sub-ranges; in particular
`chunk_ranges 10 25 10 = [(10, 19), (20, 25)]`. -/
theorem chunk_ranges_partition (s e step : Int) (hse : s ≤ e) (hst : 1 ≤ step) :
    (chunk_ranges s e step).isSome ∧
    (∀ l, chunk_ranges s e step = some l → ChunksOK s e step l) ∧
    (∀ l, chunk_ranges s e step = some l →
      l.Pairwise (fun p q : Int × Int => p.2 < q.1)) ∧
    chunk_ranges 10 25 10 = some [(10, 19), (20, 25)] := by
  refine ⟨chunk_ranges_isSome s e step hst, ?_, ?_, by decide⟩
  · intro l hl
    exact chunkAux_spec e step hst _ s l hse hl
  · intro l hl
    obtain ⟨_, _, _, hchain, hbounds, _⟩ := chunkAux_spec e step hst _ s l hse hl
    exact chain_imp_pairwise l hchain (fun p hp => (hbounds p hp).1)

/-- C4 witness: the partition property at the concrete input `(10, 25, 10)`. -/
theorem chunk_ranges_partition_witness :
    (chunk_ranges 10 25 10).isSome ∧
    ChunksOK 10 25 10 [(10, 19), (20, 25)] ∧
    List.Pairwise (fun p q : Int × Int => p.2 < q.1) [(10, 19), (20, 25)] ∧
    chunk_ranges 10 25 10 = some [(10, 19), (20, 25)] :=
  ⟨(chunk_ranges_partition 10 25 10 (by decide) (by decide)).1,
   (chunk_ranges_partition 10 25 10 (by decide) (by decide)).2.1
     [(10, 19), (20, 25)] (by decide),
   (chunk_ranges_partition 10 25 10 (by decide) (by decide)).2.2.1
     [(10, 19), (20, 25)] (by decide),
   (chunk_ranges_partition 10 25 10 (by decide) (by decide)).2.2.2⟩

/-- C9: `chunk_ranges` terminates for every `step ≥ 1` (the fuel
`(end - start + 1).toNat` suffices because every iteration advances `cur`),
and `main` passes `max(1, step)` to the fetch stage — `runAfterSetup` hands
`max 1 step` to `fetch_logs` by definition — so the pipeline never runs the
chunker with a non-positive step: it is defined (`isSome`) for every step. -/
theorem chunker_termination_and_step_coercion (s e step : Int) (hst : 1 ≤ step)
    (tm : List (String × SigEntry)) (query : Int → Int → Except String (List Log))
    (s' e' step' : Int) (required : Option (List String)) :
    (chunk_ranges s e step).isSome ∧
    1 ≤ max 1 step' ∧
    (chunk_ranges s' e' (max 1 step')).isSome ∧
    (runAfterSetup tm query s' e' step' required).isSome :=
  ⟨chunk_ranges_isSome s e step hst, le_max_left _ _,
   chunk_ranges_isSome s' e' _ (le_max_left _ _),
   runAfterSetup_isSome tm query s' e' step' required⟩

/-- C9 witness: termination at `(0, 5, 2)` and a run with the negative CLI
step `-7`, which the pipeline coerces to 1. -/
theorem chunker_termination_witness :
    (chunk_ranges 0 5 2).isSome ∧
    1 ≤ max 1 (-7 : Int) ∧
    (chunk_ranges 3 9 (max 1 (-7 : Int))).isSome ∧
    (runAfterSetup [] (fun _ _ => .ok []) 3 9 (-7) none).isSome :=
  chunker_termination_and_step_coercion 0 5 2 (by decide) []
    (fun _ _ => .ok []) 3 9 (-7) none

set_option maxRecDepth 1000000 in
/-- C5: an event definition whose inputs all carry a type string maps to a
single entry whose signature joins the input types with commas (no spaces)
inside `name(...)` and whose key is `"0x"` followed by the lowercase hex of
the Keccak-256 hash of the signature's UTF-8 bytes — always 66 characters;
the `Transfer(address,address,uint256)` example hashes to the well-known
topic `0xddf252ad…b3ef`. -/
theorem signature_derivation (nm : String) (tys : List String) (hnm : nm ≠ "") :
    build_event_signature_map [eventItem nm tys]
      = .ok [("0x" ++ bytesToHex (keccak256 (utf8Bytes
            (nm ++ "(" ++ String.intercalate "," tys ++ ")"))),
          ⟨nm, tys.map (fun t => .obj [("type", .str t)]),
           nm ++ "(" ++ String.intercalate "," tys ++ ")"⟩)] ∧
    (∀ s : String, (keccakTopic s).length = 66) ∧
    keccakTopic "Transfer(address,address,uint256)"
      = "0xddf252ad1be2c89b69c2b068fc378daa952ba7f163c4a11628f55a4df523b3ef" := by
  refine ⟨?_, keccakTopic_length, by decide⟩
  show List.foldlM sigMapStep [] [eventItem nm tys] = _
  simp only [List.foldlM, sigMapStep_event [] nm tys hnm]
  rfl

/-- C5 witness: the Transfer example, with the non-empty-name hypothesis
discharged. -/
theorem signature_derivation_witness :
    build_event_signature_map [eventItem "Transfer" ["address", "address", "uint256"]]
      = .ok [("0x" ++ bytesToHex (keccak256 (utf8Bytes
            ("Transfer" ++ "(" ++ String.intercalate ","
              ["address", "address", "uint256"] ++ ")"))),
          ⟨"Transfer",
           ["address", "address", "uint256"].map (fun t => .obj [("type", .str t)]),
           "Transfer" ++ "(" ++ String.intercalate ","
             ["address", "address", "uint256"] ++ ")"⟩)] ∧
    keccakTopic "Transfer(address,address,uint256)"
      = "0xddf252ad1be2c89b69c2b068fc378daa952ba7f163c4a11628f55a4df523b3ef" :=
  ⟨(signature_derivation "Transfer" ["address", "address", "uint256"] (by decide)).1,
   (signature_derivation "Transfer" ["address", "address", "uint256"] (by decide)).2.2⟩

/-- C6 counterexample: an event definition with no `inputs` field at all
does contribute an entry — `item.get("inputs", [])` (src/event.py line 26)
defaults the missing field to `[]`, which passes the `isinstance(inputs,
list)` check, so `{type: "event", name: "E"}` yields the zero-argument
entry `"E()"` — refuting the claim that a missing inputs field contributes
no entry to the signature map. -/
theorem sigmap_missing_inputs_contributes :
    build_event_signature_map [.obj [("type", .str "event"), ("name", .str "E")]]
      = .ok [(keccakTopic "E()", ⟨"E", [], "E()"⟩)] ∧
    build_event_signature_map [.obj [("type", .str "event"), ("name", .str "E")]]
      ≠ .ok [] := by
  have h1 : build_event_signature_map
      [.obj [("type", .str "event"), ("name", .str "E")]]
      = .ok [(keccakTopic "E()", ⟨"E", [], "E()"⟩)] := rfl
  refine ⟨h1, ?_⟩
  rw [h1]
  simp

/-- C6 (amended): a definition that is not of event kind, or has a falsy
(missing or empty) name, or whose `inputs` field is present but not a list,
contributes no entry and raises no error; a missing `inputs` field is instead
defaulted to the empty list, so the definition is processed exactly as if it
declared `inputs: []` (and hence contributes a zero-argument `name()` entry);
an ABI with zero qualifying definitions yields an empty map, and the run
still completes with that empty map. -/
theorem sigmap_skips_and_default_inputs :
    (∀ (acc : List (String × SigEntry)) (kvs : List (String × Json)),
      jget kvs "type" ≠ some (.str "event") → sigMapStep acc (.obj kvs) = .ok acc) ∧
    (∀ (acc : List (String × SigEntry)) (kvs : List (String × Json)),
      jsonTruthy ((jget kvs "name").getD .null) = false →
      sigMapStep acc (.obj kvs) = .ok acc) ∧
    (∀ (acc : List (String × SigEntry)) (kvs : List (String × Json)) (v : Json),
      jget kvs "inputs" = some v → jsonIsArr v = false →
      sigMapStep acc (.obj kvs) = .ok acc) ∧
    (∀ (acc : List (String × SigEntry)) (nm : Json),
      sigMapStep acc (.obj [("type", .str "event"), ("name", nm)])
        = sigMapStep acc (.obj [("type", .str "event"), ("name", nm),
            ("inputs", .arr [])])) ∧
    (∀ abi : List Json,
      (∀ item ∈ abi, ∀ acc : List (String × SigEntry), sigMapStep acc item = .ok acc) →
      build_event_signature_map abi = .ok []) ∧
    (∀ (query : Int → Int → Except String (List Log)) (s e step : Int)
        (required : Option (List String)) (logs : List Log),
      fetch_logs query s e (max 1 step) = some (.ok logs) →
      ∃ r code, runAfterSetup [] query s e step required = some (.ok (r, code))) := by
  refine ⟨sigMapStep_skip_type, sigMapStep_skip_name, ?_, ?_,
    fun abi h => foldlM_all_skip abi h [],
    fun query s e step required logs h =>
      runAfterSetup_completes [] query s e step required logs h⟩
  · intro acc kvs v hv hna
    apply sigMapStep_skip_inputs
    rw [hv]
    simpa using hna
  · intro acc nm
    simp [sigMapStep, jget, dget]

/-- C6 witness: the ABI of a function definition, a nameless event and an
event with a string `inputs` field maps to the empty map without error, and
the missing-inputs event is processed as if it declared `inputs: []`. -/
theorem sigmap_skips_and_default_inputs_witness :
    build_event_signature_map
      [.obj [("type", .str "function"), ("name", .str "f")],
       .obj [("type", .str "event")],
       .obj [("type", .str "event"), ("name", .str "E"), ("inputs", .str "zzz")]]
      = .ok [] ∧
    sigMapStep [] (.obj [("type", .str "event"), ("name", .str "E")])
      = sigMapStep [] (.obj [("type", .str "event"), ("name", .str "E"),
          ("inputs", .arr [])]) :=
  ⟨sigmap_skips_and_default_inputs.2.2.2.2.1 _ (by
      intro item hi acc
      fin_cases hi <;> rfl),
   sigmap_skips_and_default_inputs.2.2.2.1 [] (.str "E")⟩

/-- C8: an event definition whose inputs list contains an entry without a
`"type"` field makes `build_event_signature_map` raise an uncaught error
(`KeyError` from `i["type"]`) instead of skipping the definition. -/
theorem sigmap_missing_input_type_raises :
    build_event_signature_map
      [.obj [("type", .str "event"), ("name", .str "Bad"),
             ("inputs", .arr [.obj [("indexed", .bool false)]])]]
      = .error "KeyError: 'type'" := by
  rfl

/-- C7: if every chunk query succeeds, `fetch_logs` returns the concatenation
of the per-chunk results in chunk order; if any chunk query fails, the whole
fetch fails with some error, returning no partial result (there is no retry:
each chunk is queried at most once, by the shape of `fetchChunks`); and a
failed fetch makes the run end as `.error` — exit 1 — which carries no
report. -/
theorem fetch_error_propagation (query : Int → Int → Except String (List Log))
    (results : Int × Int → List Log) (s e step : Int)
    (chunks : List (Int × Int)) (tm : List (String × SigEntry))
    (required : Option (List String)) :
    (chunk_ranges s e step = some chunks →
      (∀ p ∈ chunks, query p.1 p.2 = .ok (results p)) →
      fetch_logs query s e step = some (.ok ((chunks.map results).flatten))) ∧
    (chunk_ranges s e step = some chunks →
      (∃ p ∈ chunks, ∃ msg, query p.1 p.2 = .error msg) →
      ∃ msg, fetch_logs query s e step = some (.error msg)) ∧
    (∀ msg, fetch_logs query s e (max 1 step) = some (.error msg) →
      runAfterSetup tm query s e step required = some (.error msg)) := by
  refine ⟨?_, ?_, ?_⟩
  · intro hc hok
    unfold fetch_logs
    rw [hc]
    simp only [Option.map_some']
    rw [fetchChunks_all_ok query results chunks hok]
  · intro hc hfail
    obtain ⟨msg, hmsg⟩ := fetchChunks_fail query chunks hfail
    refine ⟨msg, ?_⟩
    unfold fetch_logs
    rw [hc]
    simp only [Option.map_some']
    rw [hmsg]
  · intro msg hmsg
    unfold runAfterSetup
    rw [hmsg]
    rfl

/-- C7 witness: a three-chunk fetch whose chunks all succeed concatenates in
order; a query that fails past block 5 aborts the fetch and the run. -/
theorem fetch_error_propagation_witness :
    fetch_logs (fun _ _ => .ok [⟨["0xaa"]⟩]) 0 10 5
      = some (.ok (([(0, 4), (5, 9), (10, 10)].map
          (fun _ : Int × Int => [⟨["0xaa"]⟩])).flatten)) ∧
    runAfterSetup [] (fun a _ => if 5 ≤ a then .error "boom" else .ok []) 0 10 5 none
      = some (.error "boom") :=
  ⟨(fetch_error_propagation (fun _ _ => .ok [⟨["0xaa"]⟩])
      (fun _ => [⟨["0xaa"]⟩]) 0 10 5 [(0, 4), (5, 9), (10, 10)] [] none).1
      (by rfl) (fun p _ => rfl),
   (fetch_error_propagation (fun a _ => if 5 ≤ a then .error "boom" else .ok [])
      (fun _ => []) 0 10 5 [(0, 4), (5, 9), (10, 10)] [] none).2.2
      "boom" (by rfl)⟩

/-- A one-event topic map for the concrete witnesses. -/
def demoTopicMap : List (String × SigEntry) :=
  [("0xaaa", ⟨"Transfer", [], "Transfer()"⟩)]

/-- Three demo logs: an unknown topic, a zero-topic record, a known topic. -/
def demoLogs : List Log :=
  [⟨["0xbb", "0xcc"]⟩, ⟨[]⟩, ⟨["0xaaa"]⟩]

/-- C1: each log with at least one topic increments its first topic's counter
in counts_by_topic; when that first topic is not a key of the signature map
the same occurrence also increments unknown_topics (and only such topics have
unknown counters); zero-topic records contribute to no counter; an unresolved
topic resolves to the synthetic name `"UNKNOWN(" ++ first 10 chars ++ "…)"`,
and counts_by_name attributes every topic's count to exactly its resolved
name — so an unknown occurrence appears only under its synthetic label. -/
theorem classify_unknown_and_fallback (tm : List (String × SigEntry))
    (logs : List Log) :
    (∀ t, dgetD (classify tm logs).1 t 0 = headTopicCount logs t) ∧
    (∀ t, dget tm t = none →
      dgetD (classify tm logs).2 t 0 = headTopicCount logs t) ∧
    (∀ t, (dget (classify tm logs).2 t).isSome → dget tm t = none) ∧
    classify tm logs = classify tm (logs.filter (fun lg => !lg.topics.isEmpty)) ∧
    (∀ t, dget tm t = none → resolveName tm t = "UNKNOWN(" ++ t.take 10 ++ "…)") ∧
    (∀ nm, dgetD (countsByName tm (classify tm logs).1) nm 0
      = (((classify tm logs).1.filter
          (fun p => resolveName tm p.1 == nm)).map Prod.snd).sum) := by
  refine ⟨?_, ?_, ?_, ?_, ?_, ?_⟩
  · intro t
    have h := tally_cbt_count tm t logs ([], [])
    simpa [classify, dgetD, dget] using h
  · intro t hu
    have he := tally_unknown_eq tm t hu logs ([], []) rfl
    have h1 := tally_cbt_count tm t logs ([], [])
    unfold classify dgetD
    rw [he]
    simpa [dgetD, dget] using h1
  · intro t h
    rcases tally_unknown_sub tm t logs ([], []) (by simpa [classify] using h)
      with h' | h'
    · simp [dget] at h'
    · exact h'
  · have h := tally_skips_empty tm logs ([], [])
    simpa [classify] using h
  · intro t hu
    simp [resolveName, hu, fallbackName]
  · intro nm
    have h := cbn_count tm nm (classify tm logs).1 []
    simpa [countsByName, dgetD, dget] using h

/-- C1 witness: in the demo run the unknown topic `"0xbb"` is tallied in
unknown_topics and resolves to its synthetic label. -/
theorem classify_unknown_and_fallback_witness :
    dgetD (classify demoTopicMap demoLogs).2 "0xbb" 0
      = headTopicCount demoLogs "0xbb" ∧
    resolveName demoTopicMap "0xbb" = "UNKNOWN(" ++ "0xbb".take 10 ++ "…)" :=
  ⟨(classify_unknown_and_fallback demoTopicMap demoLogs).2.1 "0xbb" (by rfl),
   (classify_unknown_and_fallback demoTopicMap demoLogs).2.2.2.2.1 "0xbb" (by rfl)⟩

/-- C10: counts are conserved — the values of counts_by_name and of
counts_by_topic have the same sum, which is the number of logs with at least
one topic — and unknown_topics agrees with counts_by_topic exactly on the
topics absent from the signature map and has no other keys. -/
theorem classifier_count_conservation (tm : List (String × SigEntry))
    (logs : List Log) :
    valsSum (countsByName tm (classify tm logs).1) = valsSum (classify tm logs).1 ∧
    valsSum (classify tm logs).1 = nonEmptyCount logs ∧
    (∀ t, dget tm t = none →
      dget (classify tm logs).2 t = dget (classify tm logs).1 t) ∧
    (∀ t, (dget (classify tm logs).2 t).isSome → dget tm t = none) := by
  refine ⟨?_, ?_, ?_, ?_⟩
  · have h := cbn_sum tm (classify tm logs).1 []
    simpa [countsByName, valsSum] using h
  · have h := tally_cbt_sum tm logs ([], [])
    simpa [classify, valsSum] using h
  · intro t hu
    simpa [classify] using tally_unknown_eq tm t hu logs ([], []) rfl
  · intro t h
    rcases tally_unknown_sub tm t logs ([], []) (by simpa [classify] using h)
      with h' | h'
    · simp [dget] at h'
    · exact h'

/-- C10 witness: conservation on the demo run, with the unknown-topic
hypothesis discharged at `"0xbb"`. -/
theorem classifier_count_conservation_witness :
    dget (classify demoTopicMap demoLogs).2 "0xbb"
      = dget (classify demoTopicMap demoLogs).1 "0xbb" ∧
    valsSum (classify demoTopicMap demoLogs).1 = nonEmptyCount demoLogs :=
  ⟨(classifier_count_conservation demoTopicMap demoLogs).2.2.1 "0xbb" (by rfl),
   (classifier_count_conservation demoTopicMap demoLogs).2.1⟩

/-- C2: missing_required is exactly the sub-list of required names, in input
order, absent from the observed resolved names (keys of counts_by_name that
do not start with `"UNKNOWN("`): it equals the corresponding filter of the
input list and is a sublist of it; a required name starting with `"UNKNOWN("`
is always reported missing; a report whose names are all synthetic satisfies
no required name; `required=["Transfer","Approval"]`, observed
`{"Transfer"}` gives `["Approval"]`. -/
theorem missing_required_spec (req : List String) (cbn : List (String × Nat)) :
    missingRequiredOf (some req) cbn
      = req.filter (fun r =>
          !(cbn.map Prod.fst).contains r || pyStartsWith r "UNKNOWN(") ∧
    (missingRequiredOf (some req) cbn).Sublist req ∧
    (∀ r, r ∈ missingRequiredOf (some req) cbn ↔
      r ∈ req ∧ ¬(r ∈ cbn.map Prod.fst ∧ pyStartsWith r "UNKNOWN(" = false)) ∧
    (∀ r ∈ req, pyStartsWith r "UNKNOWN(" = true →
      r ∈ missingRequiredOf (some req) cbn) ∧
    ((∀ nm ∈ cbn.map Prod.fst, pyStartsWith nm "UNKNOWN(" = true) →
      missingRequiredOf (some req) cbn = req) ∧
    missingRequiredOf (some ["Transfer", "Approval"]) [("Transfer", 1)]
      = ["Approval"] := by
  have hf := missingRequired_filter req cbn
  refine ⟨hf, ?_, ?_, ?_, ?_, by decide⟩
  · rw [hf]
    exact List.filter_sublist _
  · intro r
    by_cases h1 : r ∈ cbn.map Prod.fst <;>
      by_cases h2 : pyStartsWith r "UNKNOWN(" <;>
        simp [hf, List.mem_filter, h1, h2]
  · intro r hr hsw
    rw [hf, List.mem_filter]
    exact ⟨hr, by simp [hsw]⟩
  · intro hall
    rw [hf]
    apply List.filter_eq_self.mpr
    intro r hr
    by_cases h1 : r ∈ cbn.map Prod.fst
    · simp [hall r h1]
    · simp [h1]

/-- C2 witness: `"Approval"` is missing in the spec example, and a run whose
only observed name is synthetic satisfies no required event. -/
theorem missing_required_spec_witness :
    "Approval" ∈ missingRequiredOf (some ["Transfer", "Approval"]) [("Transfer", 1)] ∧
    missingRequiredOf (some ["Evt"]) [("UNKNOWN(0xab…)", 2)] = ["Evt"] :=
  ⟨((missing_required_spec ["Transfer", "Approval"] [("Transfer", 1)]).2.2.1
      "Approval").mpr ⟨by decide, by decide⟩,
   (missing_required_spec ["Evt"] [("UNKNOWN(0xab…)", 2)]).2.2.2.2.1 (by decide)⟩

/-- C3: after a completed run the exit code is 2 exactly when unknown_topics
or missing_required is non-empty, and 0 exactly otherwise; with no logs, a
non-empty topic map and no required list, counts_by_name and unknown_topics
are empty and the code is 0; with one log with an unresolvable first topic,
unknown_topics has one entry and the code is 2. -/
theorem exit_code_policy (tm : List (String × SigEntry))
    (query : Int → Int → Except String (List Log)) (s e step : Int)
    (required : Option (List String)) :
    (∀ (r : Report) (code : Nat),
      runAfterSetup tm query s e step required = some (.ok (r, code)) →
        ((code = 2 ↔ (r.unknown_topics ≠ [] ∨ r.missing_events ≠ [])) ∧
         (code = 0 ↔ (r.unknown_topics = [] ∧ r.missing_events = [])))) ∧
    runAfterSetup demoTopicMap (fun _ _ => .ok []) 0 10 5 none
      = some (.ok (⟨[], [], [], []⟩, 0)) ∧
    runAfterSetup demoTopicMap (fun _ _ => .ok [⟨["0xdeadbeef"]⟩]) 0 10 2000 none
      = some (.ok (⟨[("0xdeadbeef", 1)], [("UNKNOWN(0xdeadbeef…)", 1)],
                   [("0xdeadbeef", 1)], []⟩, 2)) := by
  refine ⟨?_, by rfl, by rfl⟩
  intro r code h
  obtain ⟨logs, hf, hr, hc⟩ := runAfterSetup_ok tm query s e step required r code h
  subst hr
  subst hc
  exact exitCodeOf_iff _ _

/-- C3 witness: the exit-code equivalences instantiated on the completed
one-unresolvable-log run, whose code is 2. -/
theorem exit_code_policy_witness :
    ((2 : Nat) = 2 ↔
      (([("0xdeadbeef", 1)] : List (String × Nat)) ≠ [] ∨ ([] : List String) ≠ [])) ∧
    ((2 : Nat) = 0 ↔
      (([("0xdeadbeef", 1)] : List (String × Nat)) = [] ∧ ([] : List String) = [])) :=
  (exit_code_policy demoTopicMap (fun _ _ => .ok [⟨["0xdeadbeef"]⟩]) 0 10 2000 none).1
    ⟨[("0xdeadbeef", 1)], [("UNKNOWN(0xdeadbeef…)", 1)], [("0xdeadbeef", 1)], []⟩ 2
    (exit_code_policy demoTopicMap (fun _ _ => .ok [⟨["0xdeadbeef"]⟩]) 0 10 2000 none).2.2

end EventSoundness
